import Mathlib

/-!
Verification development for the note-import session orchestrator of the
SimpleHexoBackend repository.  The definitions below are a shallow embedding
of the sessions module (uploadSessions) and of the helpers it uses from
server.js, written as pure Lean functions: JavaScript objects become
insertion-ordered association lists, the file system and the session store
become an explicit `World` record threaded through the operations, and
fallible operations return `Except Err`.

External library functions that are not part of the repository
(hexo-front-matter parse/stringify, hexo-util slugize, md5, base64 decoding,
Date parsing) are modelled from the specification, each with a doc comment
saying so.  Sources of nondeterminism (crypto.randomBytes, the current time,
the published-post directory snapshot, the md5 digest) are collected in a
context record `Ctx` so that every definition stays executable.
-/

namespace HexoSessions

/-- Insertion-ordered string-keyed map, the model of a JavaScript object. -/
abbrev AssocL (α : Type) := List (String × α)

/-- Property read, `obj[k]`: the first binding for `k`, if any. -/
def objGet {α : Type} (m : AssocL α) (k : String) : Option α :=
  (m.find? (fun p => p.1 = k)).map (fun p => p.2)

/-- Property write, `obj[k] = v`: updates the binding in place when the key is
present (keeping its position, as JavaScript objects do) and appends it
otherwise. -/
def objSet {α : Type} (m : AssocL α) (k : String) (v : α) : AssocL α :=
  if (m.find? (fun p => p.1 = k)).isSome then
    m.map (fun p => if p.1 = k then (k, v) else p)
  else
    m ++ [(k, v)]

/-- Property deletion, `delete obj[k]`. -/
def objDelete {α : Type} (m : AssocL α) (k : String) : AssocL α :=
  m.filter (fun p => p.1 ≠ k)

/-- `Object.keys(obj)`. -/
def objKeys {α : Type} (m : AssocL α) : List String := m.map (fun p => p.1)

/-- `Object.values(obj)`. -/
def objValues {α : Type} (m : AssocL α) : List α := m.map (fun p => p.2)

/-- Update the value stored under `k` in place, leaving other keys alone
(the model of mutating a field of `obj[k]` through an alias). -/
def mapVal {α : Type} (m : AssocL α) (k : String) (f : α → α) : AssocL α :=
  m.map (fun p => if p.1 = k then (p.1, f p.2) else p)

/-- A JavaScript-falsy optional string: absent or empty. -/
def strFalsy (o : Option String) : Bool := o.getD "" = ""

/-- Context of ambient inputs to one operation: the modelled md5 digest, the
value the modelled randomness source would produce, the current instant, and
the published-post cache snapshot (slug to folder name, as built by
`buildExistingCache` from the posts directory listing). -/
structure Ctx where
  md5hex : String → String
  rand : String
  now : String
  cache : AssocL String

/-- `archiveIdFromUrl`: md5 hex digest of the url truncated to 10 characters.
The digest itself is the `md5hex` field of the context, modelled from the
spec (a stable cryptographic hash); the truncation is the source's
`.slice(0, 10)`. -/
def archiveIdFromUrl (ctx : Ctx) (url : String) : String :=
  ((ctx.md5hex url).toList.take 10).asString

/-- `baseName`: strips a final `.extension` (`replace(/\.[^.]+$/, '')`). -/
def baseName (filename : String) : String :=
  let rev := filename.toList.reverse
  let ext := rev.takeWhile (fun c => c ≠ '.')
  if ext.length < rev.length ∧ ext ≠ [] then
    ((rev.drop (ext.length + 1)).reverse).asString
  else filename

/-- Shape check for a canonical ISO-8601 instant such as
`2024-01-02T03:04:05.000Z`.  Modelled from the spec: dates are normalized to
an ISO-8601 instant; this predicate recognises the canonical form. -/
def isIsoInstant (s : String) : Bool :=
  match s.toList with
  | [y1, y2, y3, y4, '-', m1, m2, '-', d1, d2, 'T',
     h1, h2, ':', n1, n2, ':', s1, s2, '.', f1, f2, f3, 'Z'] =>
    [y1, y2, y3, y4, m1, m2, d1, d2, h1, h2, n1, n2, s1, s2, f1, f2, f3].all
      (fun c => c.isDigit)
  | _ => false

/-- Modelled from the spec: `normalizeDate`/`formatDate` — missing, empty or
invalid input defaults to the current instant, valid input is kept as an
ISO-8601 instant. -/
def normalizeDateISO (now : String) (o : Option String) : String :=
  let v := o.getD ""
  if v = "" then now
  else if isIsoInstant v then v else now

/-- `folderFromDateSlug`: first 10 characters of the ISO date, a dash, the
slug. -/
def jsSlice (s : String) (a b : Nat) : String :=
  ((s.toList.drop a).take (b - a)).asString

/-- JavaScript `string.slice(a)`, to the end of the string. -/
def jsSliceFrom (s : String) (a : Nat) : String :=
  (s.toList.drop a).asString

/-- JavaScript regex/trim whitespace, restricted to the common ASCII cases. -/
def isSpaceJs (c : Char) : Bool :=
  c = ' ' ∨ c = '\t' ∨ c = '\n' ∨ c = '\r'

/-- JavaScript `String.prototype.trim`, on character lists so closed terms
evaluate inside the kernel. -/
def strTrim (s : String) : String :=
  ((((s.toList.dropWhile isSpaceJs).reverse).dropWhile isSpaceJs).reverse).asString

/-- JavaScript `String.prototype.split` on a fixed non-empty separator,
fuelled by the input length. -/
def splitOnAuxL (sep : List Char) : Nat → List Char → List Char → List String
  | 0, acc, _ => [acc.reverse.asString]
  | fuel + 1, acc, l =>
    if sep.isPrefixOf l then
      acc.reverse.asString :: splitOnAuxL sep fuel [] (l.drop sep.length)
    else
      match l with
      | [] => [acc.reverse.asString]
      | c :: rest => splitOnAuxL sep fuel (c :: acc) rest

def strSplitOn (s sep : String) : List String :=
  splitOnAuxL sep.toList (s.toList.length + 1) [] s.toList

/-- JavaScript `String.prototype.startsWith`. -/
def strStartsWith (s p : String) : Bool :=
  p.toList.isPrefixOf s.toList

/-- JavaScript `String.prototype.endsWith`. -/
def strEndsWith (s p : String) : Bool :=
  p.toList.reverse.isPrefixOf s.toList.reverse

def folderFromDateSlug (dateISO slug : String) : String :=
  jsSlice dateISO 0 10 ++ "-" ++ slug

def permalinkFromDateSlug (dateISO slug : String) : String :=
  let y := jsSlice dateISO 0 4
  let m := jsSlice dateISO 5 7
  let d := jsSlice dateISO 8 10
  "/" ++ y ++ "/" ++ m ++ "/" ++ d ++ "/" ++ slug ++ "/"

/-- `permalinkFromFolder`: first 10 characters are the date, characters from
index 11 on are the slug; degenerate folder names fall back to a
`/posts/...` link. -/
def permalinkFromFolder (folder : String) : String :=
  let date := jsSlice folder 0 10
  let slug := jsSliceFrom folder 11
  if date = "" ∨ slug = "" then "/posts/" ++ folder ++ "/"
  else
    "/" ++ jsSlice date 0 4 ++ "/" ++ jsSlice date 5 7 ++ "/" ++
      jsSlice date 8 10 ++ "/" ++ slug ++ "/"

/-- `findExistingFolder`: `cache[slug] || null`. -/
def findExistingFolder (cache : AssocL String) (slug : String) : Option String :=
  objGet cache slug

/-- Collapse runs of dashes to a single dash. -/
def squeezeDashes : List Char → List Char
  | [] => []
  | [c] => [c]
  | c :: d :: rest =>
    if c = '-' ∧ d = '-' then squeezeDashes (d :: rest)
    else c :: squeezeDashes (d :: rest)

/-- Modelled from the spec: hexo-util `slugize` with the lowercase transform —
alphanumeric characters are kept lowercased, every other character becomes the
separator, runs of separators collapse, leading and trailing separators are
dropped. -/
def slugize (s : String) : String :=
  let mapped := s.toList.map (fun c => if c.isAlphanum then c.toLower else '-')
  let collapsed := squeezeDashes mapped
  (((collapsed.dropWhile (fun c => c = '-')).reverse.dropWhile
      (fun c => c = '-')).reverse).asString

/-- `slugFromTitle`: `slugize(title || '') || slugize(randomId())` — the
random fallback is taken exactly when the slugized title is empty.  The
randomness source is the `rand` argument. -/
def slugFromTitle (rand : String) (title : String) : String :=
  let s := slugize title
  if s = "" then slugize rand else s

/-- Front matter: the metadata fields the sessions module reads, plus the
remaining keys kept opaquely. -/
structure Meta where
  title : Option String := none
  slug : Option String := none
  date : Option String := none
  tags : Option (List String) := none
  extra : AssocL String := []
deriving DecidableEq, Repr

def DEFAULT_TAG : String := "uncategorised"

/-- `normalizeTags` as defined in server.js: falsy input gives the default
tag; otherwise values are trimmed, empties dropped, duplicates removed
keeping the first occurrence, with the default tag as fallback for an empty
result. -/
def dedupKeepFirst : List String → List String
  | [] => []
  | x :: xs => x :: (dedupKeepFirst (xs.filter (fun y => y ≠ x)))
termination_by l => l.length
decreasing_by
  simp only [List.length_cons]
  exact Nat.lt_succ_of_le (List.length_filter_le _ _)

def normalizeTags : Option (List String) → List String
  | none => [DEFAULT_TAG]
  | some list =>
    let cleaned := dedupKeepFirst ((list.map strTrim).filter (fun t => t ≠ ""))
    if cleaned.isEmpty then [DEFAULT_TAG] else cleaned

/-- One `key: value` line of a front-matter block. -/
def fmLine (m : Meta) (line : String) : Meta :=
  match strSplitOn line ": " with
  | [k, v] =>
    if k = "title" then { m with title := some v }
    else if k = "slug" then { m with slug := some v }
    else if k = "date" then { m with date := some v }
    else if k = "tags" then { m with tags := some [v] }
    else { m with extra := objSet m.extra k v }
  | _ => m

/-- Modelled from the spec: hexo-front-matter `parse` — splits an optional
leading front-matter block (between `---` lines, `key: value` entries) from
the body; without such a block the whole input is the body and the metadata
is empty. -/
def fmParse (raw : String) : Meta × String :=
  match strSplitOn raw "\n" with
  | "---" :: rest =>
    let pre := rest.takeWhile (fun l => l ≠ "---")
    if pre.length = rest.length then ({}, raw)
    else
      let body := String.intercalate "\n" (rest.drop (pre.length + 1))
      (pre.foldl fmLine {}, body)
  | _ => ({}, raw)

/-- Modelled from the spec: hexo-front-matter `stringify` — serializes the
metadata block back in front of the body. -/
def fmStringify (meta : Meta) (content : String) : String :=
  let field := fun (k : String) (o : Option String) =>
    match o with
    | none => ""
    | some v => k ++ ": " ++ v ++ "\n"
  "---\n" ++ field "title" meta.title ++ field "slug" meta.slug ++
    field "date" meta.date ++
    (match meta.tags with
     | none => ""
     | some ts => "tags: " ++ String.intercalate ", " ts ++ "\n") ++
    String.join (meta.extra.map (fun p => p.1 ++ ": " ++ p.2 ++ "\n")) ++
    "---\n" ++ content

/-- `parseMarkdown`: parse front matter, default the title to the file's base
name, normalize the date, default the slug from the title. -/
def parseMarkdown (ctx : Ctx) (raw filename : String) : Meta × String :=
  let (data, body) := fmParse raw
  let meta := if strFalsy data.title then { data with title := some (baseName filename) } else data
  let meta := { meta with date := some (normalizeDateISO ctx.now meta.date) }
  let meta :=
    if strFalsy meta.slug then
      { meta with slug := some (slugFromTitle ctx.rand (meta.title.getD "")) }
    else meta
  (meta, body)

/-- Raw wiki-link match: the target characters and the optional alias
characters, untrimmed. -/
structure WikiRaw where
  target : List Char
  aliasText : Option (List Char)
deriving DecidableEq, Repr

/-- Nonempty maximal run of characters satisfying `p`, with the rest. -/
def takeWhile1 (p : Char → Bool) (l : List Char) : Option (List Char × List Char) :=
  let run := l.takeWhile p
  if run.isEmpty then none else some (run, l.drop run.length)

/-- Match the wiki-link pattern at the start of the input:
the regex fragment of the source scanner applied at one position. -/
def matchWiki (l : List Char) : Option (WikiRaw × List Char) :=
  match l with
  | '[' :: '[' :: rest =>
    match takeWhile1 (fun c => c ≠ ']' ∧ c ≠ '|') rest with
    | none => none
    | some (target, rest2) =>
      match rest2 with
      | ']' :: ']' :: rest3 => some ({ target := target, aliasText := none }, rest3)
      | '|' :: rest3 =>
        match takeWhile1 (fun c => c ≠ ']') rest3 with
        | some (al, ']' :: ']' :: rest4) =>
          some ({ target := target, aliasText := some al }, rest4)
        | _ => none
      | _ => none
  | _ => none

/-- Scan the whole input for wiki links, left to right, continuing after each
match and advancing one character on failure, as the source's global regex
loop does.  Fuelled by the input length: each step consumes at least one
character. -/
def scanWikiAux : Nat → List Char → List WikiRaw
  | 0, _ => []
  | fuel + 1, l =>
    match matchWiki l with
    | some (m, rest) => m :: scanWikiAux fuel rest
    | none =>
      match l with
      | [] => []
      | _ :: rest => scanWikiAux fuel rest

structure WikiLink where
  targetTitle : String
  aliasText : String
  targetSlug : String
deriving DecidableEq, Repr

/-- `extractWikiLinks`: all wiki links of the body in order, with trimmed
title and alias and the slug derived from the title. -/
def extractWikiLinks (ctx : Ctx) (body : String) : List WikiLink :=
  (scanWikiAux (body.toList.length + 1) body.toList).map (fun m =>
    let targetTitle := strTrim (m.target.asString)
    let aliasText := strTrim ((m.aliasText.getD m.target).asString)
    { targetTitle := targetTitle, aliasText := aliasText,
      targetSlug := slugFromTitle ctx.rand targetTitle })

structure ExtLink where
  text : String
  url : String
deriving DecidableEq, Repr

/-- Match `http://` or `https://` at the start of the input, returning the
matched characters and the rest. -/
def stripHttp (l : List Char) : Option (List Char × List Char) :=
  match l with
  | 'h' :: 't' :: 't' :: 'p' :: 's' :: ':' :: '/' :: '/' :: rest =>
    some ("https://".toList, rest)
  | 'h' :: 't' :: 't' :: 'p' :: ':' :: '/' :: '/' :: rest =>
    some ("http://".toList, rest)
  | _ => none

/-- Match the markdown external-link pattern at the start of the input. -/
def matchExt (l : List Char) : Option (ExtLink × List Char) :=
  match l with
  | '[' :: rest =>
    match takeWhile1 (fun c => c ≠ ']') rest with
    | some (text, ']' :: '(' :: rest2) =>
      match stripHttp rest2 with
      | some (proto, rest3) =>
        match takeWhile1 (fun c => c ≠ ')' ∧ ¬ isSpaceJs c) rest3 with
        | some (urlTail, ')' :: rest4) =>
          some ({ text := text.asString, url := (proto ++ urlTail).asString }, rest4)
        | _ => none
      | none => none
    | _ => none
  | _ => none

def scanExtAux : Nat → List Char → List ExtLink
  | 0, _ => []
  | fuel + 1, l =>
    match matchExt l with
    | some (m, rest) => m :: scanExtAux fuel rest
    | none =>
      match l with
      | [] => []
      | _ :: rest => scanExtAux fuel rest

/-- `extractExternalLinks`: all absolute http(s) markdown links of the body in
order. -/
def extractExternalLinks (body : String) : List ExtLink :=
  scanExtAux (body.toList.length + 1) body.toList

/-! ## Session data model -/

structure NoteDeps where
  notes : AssocL (String × String)
  archives : AssocL String
deriving DecidableEq, Repr

/-- Alias metadata recorded for a wiki dependency: the first component is the
alias, the second the target title, matching `{alias, targetTitle}`. -/
def mkWikiDep (dep : WikiLink) : String × String := (dep.aliasText, dep.targetTitle)

structure Note where
  slug : String
  title : String
  date : String
  meta : Meta
  body : String
  file : String
  isMain : Bool
  dependencies : NoteDeps
deriving DecidableEq, Repr

structure Archive where
  id : String
  url : String
  resolved : Bool
  filename : Option String
  filePath : Option String
  referencedBy : List String
deriving DecidableEq, Repr

structure PendingInfo where
  targetTitle : String
  referencedBy : List String
deriving DecidableEq, Repr

structure Session where
  id : String
  createdAt : String
  notes : AssocL Note
  archives : AssocL Archive
  pendingNotes : AssocL PendingInfo
  mainSlug : Option String
deriving DecidableEq, Repr

def defaultSession (now : String) (id : String) : Session :=
  { id := id, createdAt := now, notes := [], archives := [],
    pendingNotes := [], mainSlug := none }

def sessionPath (id : String) : String := "uploads/sessions/" ++ id

def sessionFile (id : String) : String := sessionPath id ++ "/session.json"

def notePath (sessionId slug : String) : String :=
  sessionPath sessionId ++ "/notes/" ++ slug ++ ".md"

def archivePath (sessionId archiveId filename : String) : String :=
  sessionPath sessionId ++ "/archives/" ++ archiveId ++ "-" ++ filename

/-! ## Dependency tracker -/

/-- `ensureNoteDependency`: register a pending note for a wiki dependency
unless the target is already a session note or a published post; append the
source slug to its `referencedBy` if absent. -/
def ensureNoteDependency (ctx : Ctx) (s : Session) (sourceSlug : String)
    (dep : WikiLink) : Session :=
  if (objGet s.notes dep.targetSlug).isSome then s
  else if (findExistingFolder ctx.cache dep.targetSlug).isSome then s
  else
    let info := (objGet s.pendingNotes dep.targetSlug).getD
      { targetTitle := dep.targetTitle, referencedBy := [] }
    let info :=
      if info.referencedBy.contains sourceSlug then info
      else { info with referencedBy := info.referencedBy ++ [sourceSlug] }
    { s with pendingNotes := objSet s.pendingNotes dep.targetSlug info }

/-- One wiki link of `updateNoteDependencies`: record the dependency on the
note object (held in `session.notes` under the source slug) and run
`ensureNoteDependency`. -/
def wikiStep (ctx : Ctx) (sourceSlug : String) (s : Session) (dep : WikiLink) : Session :=
  let s := { s with notes := mapVal s.notes sourceSlug (fun n =>
    { n with dependencies :=
      { n.dependencies with notes := objSet n.dependencies.notes dep.targetSlug (mkWikiDep dep) } }) }
  ensureNoteDependency ctx s sourceSlug dep

/-- One external link of `updateNoteDependencies`: create the archive entry
for the url's id if absent, append the source slug to its `referencedBy` if
absent, and record the dependency on the note object. -/
def extStep (ctx : Ctx) (sourceSlug : String) (s : Session) (link : ExtLink) : Session :=
  let archiveId := archiveIdFromUrl ctx link.url
  let arch := (objGet s.archives archiveId).getD
    { id := archiveId, url := link.url, resolved := false,
      filename := none, filePath := none, referencedBy := [] }
  let arch :=
    if arch.referencedBy.contains sourceSlug then arch
    else { arch with referencedBy := arch.referencedBy ++ [sourceSlug] }
  let s := { s with archives := objSet s.archives archiveId arch }
  { s with notes := mapVal s.notes sourceSlug (fun n =>
    { n with dependencies :=
      { n.dependencies with archives := objSet n.dependencies.archives archiveId link.text } }) }

/-- `updateNoteDependencies`, for the note stored under `sourceSlug`. The
source's defensive re-initialisation of `note.dependencies` is the identity
here because `addNote` always creates the note with empty dependencies. -/
def updateNoteDependencies (ctx : Ctx) (sourceSlug : String)
    (wikiLinks : List WikiLink) (externalLinks : List ExtLink) (s : Session) : Session :=
  externalLinks.foldl (extStep ctx sourceSlug)
    (wikiLinks.foldl (wikiStep ctx sourceSlug) s)

/-- The session-state effect of `addArchive`: `none` when a required field is
missing or the archive was never requested (the call fails and the session is
unchanged), otherwise the archive is marked resolved with filename and file
path set. -/
def addArchiveUpdate (ctx : Ctx) (sourceUrl filename data : String)
    (s : Session) : Option Session :=
  if sourceUrl = "" ∨ filename = "" ∨ data = "" then none
  else
    let archiveId := archiveIdFromUrl ctx sourceUrl
    match objGet s.archives archiveId with
    | none => none
    | some arch =>
      let arch := { arch with
        resolved := true
        filename := some filename
        filePath := some (archivePath s.id archiveId filename) }
      some { s with archives := objSet s.archives archiveId arch }

/-! ## Status summarizer -/

structure NoteSummary where
  slug : String
  title : String
  isMain : Bool
  missingNotes : List (String × String)
  missingArchives : List (String × String)
deriving DecidableEq, Repr

structure PendingArchiveSummary where
  id : String
  url : String
  referencedBy : List String
deriving DecidableEq, Repr

structure Summary where
  sessionId : String
  mainSlug : Option String
  notes : List NoteSummary
  pendingNotes : List (String × PendingInfo)
  pendingArchives : List PendingArchiveSummary
  ready : Bool
deriving DecidableEq, Repr

/-- `summarizeSession`: the client-facing snapshot.  The published-post cache
that the source rebuilds on entry is the context's `cache` snapshot. -/
def summarizeSession (ctx : Ctx) (s : Session) : Summary :=
  let pendingNotes := s.pendingNotes.map (fun p => (p.1, p.2))
  let pendingArchives := ((objValues s.archives).filter (fun a => ¬ a.resolved)).map
    (fun a => { id := a.id, url := a.url, referencedBy := a.referencedBy : PendingArchiveSummary })
  let noteSummaries := (objValues s.notes).map (fun note =>
    { slug := note.slug, title := note.title, isMain := note.isMain,
      missingNotes := ((objKeys note.dependencies.notes).filter (fun dep =>
          (objGet s.notes dep).isNone ∧ (findExistingFolder ctx.cache dep).isNone)).map
        (fun dep => (dep, ((objGet note.dependencies.notes dep).getD ("", "")).1)),
      missingArchives := ((objKeys note.dependencies.archives).filter (fun i =>
          match objGet s.archives i with
          | none => true
          | some a => ¬ a.resolved)).map
        (fun i => (i, (objGet note.dependencies.archives i).getD "")) : NoteSummary })
  { sessionId := s.id, mainSlug := s.mainSlug, notes := noteSummaries,
    pendingNotes := pendingNotes, pendingArchives := pendingArchives,
    ready := pendingNotes.length = 0 ∧ pendingArchives.length = 0 }

/-! ## Errors and the world -/

/-- Failure kinds.  The first four are the declared kinds of the error-handling
design; `referenceError` and `typeError` model JavaScript runtime errors
raised by evaluating an undefined identifier or dereferencing `undefined`. -/
inductive Err
  | notFound (msg : String)
  | validation (msg : String)
  | precondition (msg : String)
  | ioError (msg : String)
  | referenceError (msg : String)
  | typeError (msg : String)
deriving DecidableEq, Repr

/-- Is the error one of the four kinds declared by the error-handling design? -/
def Err.declaredKind : Err → Bool
  | .notFound _ => true
  | .validation _ => true
  | .precondition _ => true
  | .ioError _ => true
  | .referenceError _ => false
  | .typeError _ => false

/-- Durable state: the persisted sessions keyed by id, and the written files
keyed by path. -/
structure World where
  sessions : AssocL Session
  files : AssocL String
deriving DecidableEq, Repr

def loadSession (w : World) (id : String) : Except Err Session :=
  match objGet w.sessions id with
  | none => .error (.notFound "Session not found")
  | some s => .ok s

def saveSession (w : World) (s : Session) : World :=
  { w with sessions := objSet w.sessions s.id s }

def writeFile (w : World) (path content : String) : World :=
  { w with files := objSet w.files path content }

/-- Modelled from the spec: the payload decode of `addArchive` — a raw or
data-URI-prefixed base64 payload becomes bytes; the bytes are modelled as the
string left after stripping a `data:...,` prefix. -/
def stripDataUri (data : String) : String :=
  match strSplitOn data "," with
  | first :: rest =>
    if strStartsWith first "data:" ∧ first ≠ "data:" ∧ rest ≠ [] then
      String.intercalate "," rest
    else data
  | _ => data

/-- `addArchive` over the durable world: field validation, session load,
requested-archive check, file write, session mutation, persist, summary. -/
def addArchiveW (ctx : Ctx) (w : World) (sessionId sourceUrl filename data : String) :
    World × Except Err Summary :=
  if sourceUrl = "" ∨ filename = "" ∨ data = "" then
    (w, .error (.validation "Archive upload requires url, filename and data"))
  else
    match loadSession w sessionId with
    | .error e => (w, .error e)
    | .ok session =>
      let archiveId := archiveIdFromUrl ctx sourceUrl
      match objGet session.archives archiveId with
      | none => (w, .error (.validation "Archive was not requested"))
      | some arch =>
        let fileTarget := archivePath sessionId archiveId filename
        let w := writeFile w fileTarget (stripDataUri data)
        let arch := { arch with
          resolved := true
          filename := some filename
          filePath := some fileTarget }
        let session := { session with archives := objSet session.archives archiveId arch }
        let w := saveSession w session
        (w, .ok (summarizeSession ctx session))

/-- `addNote` over the durable world, as the module is written: after
validation, session load and parsing it writes the raw upload into session
storage, and then evaluates `normalizeTags` — an identifier the sessions
module neither defines nor imports — so the call raises a ReferenceError
before the session itself is updated or persisted. -/
def addNoteW (ctx : Ctx) (w : World) (sessionId filename content : String)
    (_isMain : Bool) : World × Except Err Summary :=
  if filename = "" ∨ content = "" then
    (w, .error (.validation "Filename and content required"))
  else
    match loadSession w sessionId with
    | .error e => (w, .error e)
    | .ok session =>
      let parsed := parseMarkdown ctx content filename
      let slug := parsed.1.slug.getD ""
      let fileTarget := notePath sessionId slug
      let w := writeFile w fileTarget content
      let _ := session
      (w, .error (.referenceError "normalizeTags is not defined"))

/-! ## Commit engine -/

/-- `assertReady`: the readiness gate of the commit engine. -/
def assertReady (s : Session) : Option Err :=
  if (objKeys s.pendingNotes).length > 0 then
    some (.precondition "Cannot commit: missing linked notes")
  else if ((objValues s.archives).filter (fun a => ¬ a.resolved)).length ≠ 0 then
    some (.precondition "Cannot commit: missing archive uploads")
  else if strFalsy s.mainSlug then
    some (.precondition "No main note uploaded")
  else none

/-- `resolveNoteUrl`: permalink of a session note from its own date and slug,
else of a previously published folder, else nothing. -/
def resolveNoteUrl (ctx : Ctx) (s : Session) (targetSlug : String)
    (_folderMap : AssocL String) : Option String :=
  match objGet s.notes targetSlug with
  | some note => some (permalinkFromDateSlug note.date targetSlug)
  | none =>
    match findExistingFolder ctx.cache targetSlug with
    | some existing => some (permalinkFromFolder existing)
    | none => none

/-- `convertWikiLinks`: rewrite each wiki link to a standard link on the
resolved permalink, or to the plain display text when unresolved. -/
def convertWikiAux (ctx : Ctx) (s : Session) (folderMap : AssocL String) :
    Nat → List Char → List Char
  | 0, l => l
  | fuel + 1, l =>
    match matchWiki l with
    | some (m, rest) =>
      let targetSlug := slugFromTitle ctx.rand (strTrim (m.target.asString))
      let display := strTrim ((m.aliasText.getD m.target).asString)
      let repl :=
        match resolveNoteUrl ctx s targetSlug folderMap with
        | some url => "[" ++ display ++ "](" ++ url ++ ")"
        | none => display
      repl.toList ++ convertWikiAux ctx s folderMap fuel rest
    | none =>
      match l with
      | [] => []
      | c :: rest => c :: convertWikiAux ctx s folderMap fuel rest

def convertWikiLinks (ctx : Ctx) (body : String) (s : Session)
    (folderMap : AssocL String) : String :=
  (convertWikiAux ctx s folderMap (body.toList.length + 1) body.toList).asString

/-- `convertExternalLinks`: rewrite each external link whose archive was
relocated; links with no archive mapping are left unmodified. -/
def convertExtAux (ctx : Ctx) (archiveMap : AssocL String) :
    Nat → List Char → List Char
  | 0, l => l
  | fuel + 1, l =>
    match matchExt l with
    | some (m, rest) =>
      let archiveId := archiveIdFromUrl ctx m.url
      let matchedText := "[" ++ m.text ++ "](" ++ m.url ++ ")"
      let repl :=
        match objGet archiveMap archiveId with
        | none => matchedText
        | some newUrl => "[" ++ m.text ++ "](" ++ newUrl ++ ")"
      repl.toList ++ convertExtAux ctx archiveMap fuel rest
    | none =>
      match l with
      | [] => []
      | c :: rest => c :: convertExtAux ctx archiveMap fuel rest

def convertExternalLinks (ctx : Ctx) (body : String) (archiveMap : AssocL String) :
    String :=
  (convertExtAux ctx archiveMap (body.toList.length + 1) body.toList).asString

/-- Modelled from the spec: `encodeURI` — the final served URL is the
URL-escaped path; spaces are the escaping case that arises from filenames. -/
def encodeURI (s : String) : String :=
  (s.toList.map (fun c => if c = ' ' then "%20" else String.mk [c])).foldl
    (fun acc part => acc ++ part) ""

/-- Copy one archive dependency into the destination's `archives/` folder,
extending the archive-link map; `undefined` dereferences and missing source
files surface as errors. -/
def copyArchive (s : Session) (w : World) (folder : String)
    (acc : AssocL String) (archiveId : String) :
    Except Err (World × AssocL String) :=
  match objGet s.archives archiveId with
  | none => .error (.typeError "Cannot read properties of undefined")
  | some arch =>
    let safeName :=
      if strFalsy arch.filename then archiveId ++ ".html" else arch.filename.getD ""
    let destFile := "posts/" ++ folder ++ "/archives/" ++ archiveId ++ "-" ++ safeName
    match arch.filePath with
    | none => .error (.ioError "ENOENT: no such file or directory")
    | some src =>
      match objGet w.files src with
      | none => .error (.ioError "ENOENT: no such file or directory")
      | some content =>
        .ok (writeFile w destFile content,
          objSet acc archiveId
            (encodeURI ("/posts/" ++ folder ++ "/archives/" ++ archiveId ++ "-" ++ safeName)))

/-- Copy a note's archive dependencies in order; a failure keeps the files
already copied (the loop is not transactional). -/
def copyArchives (s : Session) (folder : String) :
    World → AssocL String → List String → World × AssocL String × Option Err
  | w, acc, [] => (w, acc, none)
  | w, acc, archiveId :: rest =>
    match copyArchive s w folder acc archiveId with
    | .error e => (w, acc, some e)
    | .ok (w, acc) => copyArchives s folder w acc rest

/-- Per-note commit processing, as the program behaves: copy the note's
archive files into the destination folder, convert the body links (pure, no
world effect), then — while building the front-matter metadata — evaluate
`normalizeTags(meta.tags)` (line 330), an identifier the module neither
defines nor imports: the step raises a ReferenceError before the destination
`index.md` is ever written. -/
def commitNote (ctx : Ctx) (s : Session) (folderMap : AssocL String)
    (w : World) (slug : String) (note : Note) : World × Option Err :=
  let folder := (objGet folderMap slug).getD ""
  match copyArchives s folder w [] (objKeys note.dependencies.archives) with
  | (w, _, some e) => (w, some e)
  | (w, archiveLinks, none) =>
    let body := convertWikiLinks ctx note.body s folderMap
    let _body := convertExternalLinks ctx body archiveLinks
    let _meta := { note.meta with slug := some note.slug, date := some note.date }
    (w, some (.referenceError "normalizeTags is not defined"))

def commitLoop (ctx : Ctx) (s : Session) (folderMap : AssocL String) :
    World → List (String × Note) → World × Option Err
  | w, [] => (w, none)
  | w, (slug, note) :: rest =>
    match commitNote ctx s folderMap w slug note with
    | (w, some e) => (w, some e)
    | (w, none) => commitLoop ctx s folderMap w rest

structure CommitResult where
  success : Bool
  folders : List String
deriving DecidableEq, Repr

/-- Delete the session's working-storage tree. -/
def deleteSessionTree (w : World) (sessionId : String) : World :=
  { sessions := objDelete w.sessions sessionId,
    files := w.files.filter (fun p => ¬ strStartsWith p.1 (sessionPath sessionId)) }

/-- `commitSession`: load, gate on readiness, compute destination folders,
process every note, delete the session tree, return the folder list. -/
def commitSession (ctx : Ctx) (w : World) (sessionId : String) :
    World × Except Err CommitResult :=
  match loadSession w sessionId with
  | .error e => (w, .error e)
  | .ok session =>
    match assertReady session with
    | some e => (w, .error e)
    | none =>
      let folderMap := session.notes.foldl
        (fun fm p => objSet fm p.2.slug (folderFromDateSlug p.2.date p.2.slug)) []
      match commitLoop ctx session folderMap w session.notes with
      | (w, some e) => (w, .error e)
      | (w, none) =>
        (deleteSessionTree w sessionId,
         .ok { success := true, folders := objValues folderMap })

/-! ## Operation sequences over a session -/

/-- One public mutating operation, at session-state level. -/
inductive Op
  | note (filename content : String) (isMain : Bool)
  | archive (sourceUrl filename data : String)
deriving DecidableEq, Repr

/-- Apply one operation to the session state, as the program behaves: an
`addNote` call evaluates the undefined identifier `normalizeTags` (line 191)
after writing the raw upload file but before touching the session record, so
every note upload raises a ReferenceError and leaves the session unchanged
(see `addNoteW`); `addArchive` throws before mutating anything when a field
is missing or the archive was never requested, and otherwise resolves the
requested entry. -/
def applyOp (ctx : Ctx) (s : Session) : Op → Session
  | .note _ _ _ => s
  | .archive u f d => (addArchiveUpdate ctx u f d s).getD s

def applyOps (ctx : Ctx) (ops : List Op) (s : Session) : Session :=
  ops.foldl (applyOp ctx) s

def Err.isPrecondition : Err → Bool
  | .precondition _ => true
  | _ => false

def isPreconditionErr (r : Except Err CommitResult) : Bool :=
  match r with
  | .error e => e.isPrecondition
  | .ok _ => false

/-- Every archive dependency of every note is backed by durable state: the
archive entry exists, its file path is set, and the file is present. -/
def ArchivesBacked (s : Session) (w : World) : Prop :=
  ∀ p ∈ s.notes, ∀ k ∈ objKeys p.2.dependencies.archives,
    ∃ a, objGet s.archives k = some a ∧
      ∃ fp, a.filePath = some fp ∧ (objGet w.files fp).isSome = true

/-- The three readiness conditions of the commit gate, as session-state
predicates: no pending notes, all archives resolved, a main slug set. -/
def ReadyConds (s : Session) : Prop :=
  s.pendingNotes = [] ∧ (∀ a ∈ s.archives, a.2.resolved = true) ∧
    strFalsy s.mainSlug = false

/-! ## Concrete instances for closed evaluations -/

/-- A concrete context for closed evaluations; the modelled digest is the
identity on strings (any function works, the operations only use it as a
black box). -/
def ctxA : Ctx :=
  { md5hex := fun s => s, rand := "r4nd0m",
    now := "2024-01-01T00:00:00.000Z", cache := [] }

/-- A session holding one unresolved requested archive, for closed
evaluations of the archive-upload operation (the identity digest of `ctxA`
makes the archive id the first 10 characters of the url). -/
def sessC7 : Session :=
  { id := "s7", createdAt := "2024-01-01T00:00:00.000Z", notes := [],
    archives := [("http://e.c",
      { id := "http://e.c", url := "http://e.com", resolved := false,
        filename := none, filePath := none, referencedBy := ["a"] })],
    pendingNotes := [], mainSlug := none }

def wC7 : World := { sessions := [("s7", sessC7)], files := [] }

/-- A world holding one freshly created empty session. -/
def wC3 : World :=
  { sessions := [("s3", defaultSession "2024-01-01T00:00:00.000Z" "s3")], files := [] }

/-- A ready-to-commit session: one main note without dependencies. -/
def noteC2 : Note :=
  { slug := "a", title := "a", date := "2024-01-01T00:00:00.000Z",
    meta := {}, body := "hello", file := "uploads/sessions/s2/notes/a.md",
    isMain := true, dependencies := { notes := [], archives := [] } }

def sessC2 : Session :=
  { id := "s2", createdAt := "2024-01-01T00:00:00.000Z",
    notes := [("a", noteC2)], archives := [], pendingNotes := [],
    mainSlug := some "a" }

def wC2 : World := { sessions := [("s2", sessC2)], files := [] }

/-- The resolved form of an archive entry after a successful upload. -/
def resolveArch (a : Archive) (f path : String) : Archive :=
  { a with resolved := true, filename := some f, filePath := some path }

/-- The session after a successful `addArchive` resolves entry `aid`. -/
def resolveSession (s : Session) (aid : String) (a : Archive) (f path : String) : Session :=
  { s with archives := objSet s.archives aid (resolveArch a f path) }

/-- C4 invariant, as the claim states it: a pending entry exists exactly for
slugs referenced in some stored note's wiki dependencies that are neither
stored notes themselves nor published-cache hits. -/
def PendingInvariant (ctx : Ctx) (s : Session) : Prop :=
  ∀ S : String, (objGet s.pendingNotes S).isSome = true ↔
    ((∃ p ∈ s.notes, (objGet p.2.dependencies.notes S).isSome = true) ∧
     (objGet s.notes S).isSome = false ∧
     (findExistingFolder ctx.cache S).isSome = false)

/-! ## Association-list laws -/

theorem find?_cons_pos {α : Type} (p : α → Bool) (a : α) (l : List α)
    (h : p a = true) : (a :: l).find? p = some a := by
  simp [List.find?, h]

theorem find?_cons_neg {α : Type} (p : α → Bool) (a : α) (l : List α)
    (h : p a = false) : (a :: l).find? p = l.find? p := by
  simp [List.find?, h]

/-- The update map of `objSet` rewrites every binding of `k` to `(k, v)`. -/
theorem find?_setMap_self {α : Type} (m : AssocL α) (k : String) (v : α) :
    ((m.map (fun p => if p.1 = k then (k, v) else p)).find? (fun p => p.1 = k)) =
      (m.find? (fun p => p.1 = k)).map (fun _ => (k, v)) := by
  induction m with
  | nil => rfl
  | cons p rest ih =>
    by_cases hp : p.1 = k
    · rw [List.map_cons, if_pos hp,
        find?_cons_pos _ _ _ (by simp), find?_cons_pos _ _ _ (by simp [hp])]
      rfl
    · rw [List.map_cons, if_neg hp,
        find?_cons_neg _ _ _ (by simp [hp]), find?_cons_neg _ _ _ (by simp [hp])]
      exact ih

theorem find?_setMap_ne {α : Type} (m : AssocL α) (k k' : String) (v : α)
    (h : k' ≠ k) :
    ((m.map (fun p => if p.1 = k then (k, v) else p)).find? (fun p => p.1 = k')) =
      m.find? (fun p => p.1 = k') := by
  induction m with
  | nil => rfl
  | cons p rest ih =>
    by_cases hp : p.1 = k
    · rw [List.map_cons, if_pos hp,
        find?_cons_neg _ _ _ (by simp [Ne.symm h]),
        find?_cons_neg _ _ _ (by simp [hp, Ne.symm h])]
      exact ih
    · by_cases hp' : p.1 = k'
      · rw [List.map_cons, if_neg hp,
          find?_cons_pos _ _ _ (by simp [hp']), find?_cons_pos _ _ _ (by simp [hp'])]
      · rw [List.map_cons, if_neg hp,
          find?_cons_neg _ _ _ (by simp [hp']), find?_cons_neg _ _ _ (by simp [hp'])]
        exact ih

theorem objGet_objSet_self {α : Type} (m : AssocL α) (k : String) (v : α) :
    objGet (objSet m k v) k = some v := by
  unfold objSet objGet
  by_cases h : (m.find? (fun p => p.1 = k)).isSome
  · rw [if_pos h, find?_setMap_self]
    rcases Option.isSome_iff_exists.mp h with ⟨a, ha⟩
    rw [ha]; rfl
  · rw [if_neg h, List.find?_append,
      Option.not_isSome_iff_eq_none.mp h, Option.none_or,
      find?_cons_pos _ _ _ (by simp)]
    rfl

theorem objGet_objSet_ne {α : Type} (m : AssocL α) (k k' : String) (v : α)
    (h : k' ≠ k) : objGet (objSet m k v) k' = objGet m k' := by
  unfold objSet objGet
  by_cases hf : (m.find? (fun p => p.1 = k)).isSome
  · rw [if_pos hf, find?_setMap_ne _ _ _ _ h]
  · rw [if_neg hf, List.find?_append,
      find?_cons_neg _ _ _ (by simp [Ne.symm h])]
    simp

theorem objGet_objDelete_self {α : Type} (m : AssocL α) (k : String) :
    objGet (objDelete m k) k = none := by
  induction m with
  | nil => rfl
  | cons p rest ih =>
    show objGet (List.filter _ (p :: rest)) k = _
    rw [List.filter_cons]
    by_cases hp : p.1 = k
    · rw [if_neg (by simp [hp])]
      exact ih
    · rw [if_pos (by simp [hp])]
      unfold objGet
      rw [find?_cons_neg _ _ _ (by simp [hp])]
      exact ih

theorem objGet_objDelete_ne {α : Type} (m : AssocL α) (k k' : String)
    (h : k' ≠ k) : objGet (objDelete m k) k' = objGet m k' := by
  induction m with
  | nil => rfl
  | cons p rest ih =>
    show objGet (List.filter _ (p :: rest)) k' = objGet (p :: rest) k'
    rw [List.filter_cons]
    by_cases hp : p.1 = k
    · rw [if_neg (by simp [hp])]
      have hrhs : objGet (p :: rest) k' = objGet rest k' := by
        unfold objGet
        rw [find?_cons_neg _ _ _ (by simp [hp, Ne.symm h])]
      rw [hrhs]
      exact ih
    · rw [if_pos (by simp [hp])]
      by_cases hp' : p.1 = k'
      · unfold objGet
        rw [find?_cons_pos _ _ _ (by simp [hp']),
          find?_cons_pos _ _ _ (by simp [hp'])]
      · unfold objGet
        rw [find?_cons_neg _ _ _ (by simp [hp']),
          find?_cons_neg _ _ _ (by simp [hp'])]
        exact ih

theorem objGet_mapVal {α : Type} (m : AssocL α) (k k' : String) (f : α → α) :
    objGet (mapVal m k f) k' =
      if k' = k then (objGet m k').map f else objGet m k' := by
  induction m with
  | nil => by_cases hk : k' = k <;> simp [objGet, mapVal, hk]
  | cons p rest ih =>
    show objGet ((if p.1 = k then (p.1, f p.2) else p) :: mapVal rest k f) k' = _
    have hd1 : (if p.1 = k then (p.1, f p.2) else p).1 = p.1 := by
      by_cases hpk : p.1 = k <;> simp [hpk]
    by_cases hp : p.1 = k'
    · unfold objGet
      rw [find?_cons_pos _ _ _ (by simp only [hd1]; simp [hp]),
        find?_cons_pos _ _ _ (by simp [hp])]
      by_cases hk : k' = k
      · simp [hk, hp.trans hk]
      · simp [hk, show ¬ p.1 = k from fun hpk => hk (hp.symm.trans hpk)]
    · unfold objGet
      rw [find?_cons_neg _ _ _ (by simp [hd1, hp]),
        find?_cons_neg _ _ _ (by simp [hp])]
      by_cases hk : k' = k
      · rw [if_pos hk]
        have := ih
        rw [if_pos hk] at this
        exact this
      · rw [if_neg hk]
        have := ih
        rw [if_neg hk] at this
        exact this

theorem objGet_mapVal_isSome {α : Type} (m : AssocL α) (k k' : String) (f : α → α) :
    (objGet (mapVal m k f) k').isSome = (objGet m k').isSome := by
  rw [objGet_mapVal]
  by_cases h : k' = k <;> simp [h]

theorem list_map_id_of {α : Type} (l : List α) (f : α → α)
    (h : ∀ a ∈ l, f a = a) : l.map f = l := by
  conv_rhs => rw [← List.map_id l]
  exact List.map_congr_left h

theorem find?_isSome_iff_mem_keys {α : Type} (m : AssocL α) (k : String) :
    (m.find? (fun p => p.1 = k)).isSome = true ↔ k ∈ objKeys m := by
  induction m with
  | nil => simp [objKeys]
  | cons p rest ih =>
    by_cases hp : p.1 = k
    · rw [find?_cons_pos _ _ _ (by simp [hp])]
      simp [objKeys, hp]
    · rw [find?_cons_neg _ _ _ (by simp [hp])]
      simp only [objKeys, List.map_cons, List.mem_cons]
      rw [ih]
      constructor
      · exact fun h => Or.inr h
      · rintro (h | h)
        · exact absurd h.symm hp
        · exact h

theorem objSet_fresh {α : Type} (m : AssocL α) (k : String) (v : α)
    (h : k ∉ objKeys m) : objSet m k v = m ++ [(k, v)] := by
  unfold objSet
  rw [if_neg (fun hs => h ((find?_isSome_iff_mem_keys m k).mp hs))]

theorem objValues_append {α : Type} (a b : AssocL α) :
    objValues (a ++ b) = objValues a ++ objValues b := by
  simp [objValues]

theorem objKeys_append {α : Type} (a b : AssocL α) :
    objKeys (a ++ b) = objKeys a ++ objKeys b := by
  simp [objKeys]

theorem objGet_objSet_isSome {α : Type} (m : AssocL α) (k k' : String) (v : α) :
    (objGet (objSet m k v) k').isSome =
      ((objGet m k').isSome || decide (k' = k)) := by
  by_cases h : k' = k
  · subst h
    rw [objGet_objSet_self]
    simp
  · rw [objGet_objSet_ne _ _ _ _ h]
    simp [h]

theorem mapVal_mapVal {α : Type} (m : AssocL α) (k : String) (f g : α → α) :
    mapVal (mapVal m k f) k g = mapVal m k (fun v => g (f v)) := by
  unfold mapVal
  rw [List.map_map]
  apply List.map_congr_left
  intro p _
  by_cases hp : p.1 = k <;> simp [hp]

theorem mapVal_objSet {α : Type} (m : AssocL α) (k : String) (v : α) (f : α → α) :
    mapVal (objSet m k v) k f = objSet m k (f v) := by
  unfold objSet mapVal
  by_cases h : (m.find? (fun p => p.1 = k)).isSome
  · rw [if_pos h, if_pos h, List.map_map]
    apply List.map_congr_left
    intro p _
    by_cases hp : p.1 = k <;> simp [hp]
  · rw [if_neg h, if_neg h, List.map_append]
    have hnone : ∀ p ∈ m, ¬ (p.1 = k) := by
      intro p hp hk
      have := List.find?_eq_none.mp (Option.not_isSome_iff_eq_none.mp h) p hp
      simp [hk] at this
    congr 1
    · exact list_map_id_of m _ (fun p hp => by simp [hnone p hp])
    · simp

theorem mapVal_id' {α : Type} (m : AssocL α) (k : String) (f : α → α)
    (hf : ∀ v, f v = v) : mapVal m k f = m := by
  unfold mapVal
  refine list_map_id_of m _ (fun p _ => ?_)
  by_cases hp : p.1 = k
  · rw [if_pos hp, hf]
  · rw [if_neg hp]

theorem objKeys_objSet_present {α : Type} (m : AssocL α) (k : String) (v : α)
    (h : (objGet m k).isSome = true) : objKeys (objSet m k v) = objKeys m := by
  unfold objSet
  rw [if_pos (by simpa [objGet] using h)]
  unfold objKeys
  rw [List.map_map]
  apply List.map_congr_left
  intro p _
  by_cases hp : p.1 = k <;> simp [hp]

theorem objGet_isSome_eq_find {α : Type} (m : AssocL α) (k : String) :
    (objGet m k).isSome = (m.find? (fun p => p.1 = k)).isSome := by
  unfold objGet
  cases m.find? (fun p => p.1 = k) <;> rfl

theorem objKeys_objSet_absent {α : Type} (m : AssocL α) (k : String) (v : α)
    (h : (objGet m k).isSome = false) : objKeys (objSet m k v) = objKeys m ++ [k] := by
  have hfresh : k ∉ objKeys m := by
    intro hm
    rw [objGet_isSome_eq_find, (find?_isSome_iff_mem_keys m k).mpr hm] at h
    cases h
  rw [objSet_fresh m k v hfresh, objKeys_append]
  rfl

theorem objKeys_nodup_objSet {α : Type} (m : AssocL α) (k : String) (v : α)
    (h : (objKeys m).Nodup) : (objKeys (objSet m k v)).Nodup := by
  cases hp : (objGet m k).isSome with
  | true => rw [objKeys_objSet_present m k v hp]; exact h
  | false =>
    rw [objKeys_objSet_absent m k v hp]
    rw [List.nodup_append]
    refine ⟨h, List.nodup_singleton k, ?_⟩
    intro x hx
    simp only [List.mem_singleton]
    intro hk
    subst hk
    rw [← find?_isSome_iff_mem_keys] at hx
    rw [objGet_isSome_eq_find, hx] at hp
    cases hp

theorem objKeys_objDelete_sublist {α : Type} (m : AssocL α) (k : String) :
    (objKeys (objDelete m k)).Sublist (objKeys m) := by
  unfold objKeys objDelete
  exact List.Sublist.map _ (List.filter_sublist m)

theorem objKeys_nodup_objDelete {α : Type} (m : AssocL α) (k : String)
    (h : (objKeys m).Nodup) : (objKeys (objDelete m k)).Nodup :=
  (objKeys_objDelete_sublist m k).nodup h

theorem objKeys_mapVal {α : Type} (m : AssocL α) (k : String) (f : α → α) :
    objKeys (mapVal m k f) = objKeys m := by
  unfold objKeys mapVal
  rw [List.map_map]
  apply List.map_congr_left
  intro p _
  by_cases hp : p.1 = k <;> simp [hp]

/-- The map view of `objSet` at a present key. -/
theorem objSet_present_eq_map {α : Type} (m : AssocL α) (k : String) (v : α)
    (h : (m.find? (fun p => p.1 = k)).isSome = true) :
    objSet m k v = m.map (fun p => if p.1 = k then (k, v) else p) := by
  unfold objSet
  rw [if_pos h]

theorem objSet_objSet {α : Type} (m : AssocL α) (k : String) (v w : α) :
    objSet (objSet m k v) k w = objSet m k w := by
  by_cases h : (m.find? (fun p => p.1 = k)).isSome
  · have h2 : ((m.map (fun p => if p.1 = k then (k, v) else p)).find?
        (fun p => p.1 = k)).isSome = true := by
      rw [find?_setMap_self]
      rcases Option.isSome_iff_exists.mp h with ⟨a, ha⟩
      rw [ha]
      rfl
    rw [objSet_present_eq_map m k v h, objSet_present_eq_map _ k w h2,
      objSet_present_eq_map m k w h, List.map_map]
    apply List.map_congr_left
    intro p _
    by_cases hp : p.1 = k <;> simp [hp]
  · have hfresh : k ∉ objKeys m := fun hm =>
      h ((find?_isSome_iff_mem_keys m k).mpr hm)
    have h2 : ((m ++ [(k, v)]).find? (fun p => p.1 = k)).isSome = true := by
      rw [List.find?_append, Option.not_isSome_iff_eq_none.mp h, Option.none_or,
        find?_cons_pos _ _ _ (by simp)]
      rfl
    rw [objSet_fresh m k v hfresh, objSet_present_eq_map _ k w h2,
      objSet_fresh m k w hfresh, List.map_append]
    congr 1
    · have hnone := List.find?_eq_none.mp (Option.not_isSome_iff_eq_none.mp h)
      exact list_map_id_of m _ (fun p hp => by
        have := hnone p hp
        simp at this
        simp [this])
    · simp

theorem objSet_comm_present {α : Type} (m : AssocL α) (k k' : String) (v w : α)
    (hk : (objGet m k).isSome = true) (hne : k ≠ k') :
    objSet (objSet m k v) k' w = objSet (objSet m k' w) k v := by
  have hfind : (m.find? (fun p => p.1 = k)).isSome := by
    rw [← objGet_isSome_eq_find]
    exact hk
  by_cases h' : (m.find? (fun p => p.1 = k')).isSome
  · have h'v : ((m.map (fun p => if p.1 = k then (k, v) else p)).find?
        (fun p => p.1 = k')).isSome = true := by
      rw [find?_setMap_ne _ _ _ _ (Ne.symm hne)]
      exact h'
    have h'w : ((m.map (fun p => if p.1 = k' then (k', w) else p)).find?
        (fun p => p.1 = k)).isSome = true := by
      rw [find?_setMap_ne _ _ _ _ hne]
      exact hfind
    rw [objSet_present_eq_map m k v hfind, objSet_present_eq_map _ k' w h'v,
      objSet_present_eq_map m k' w h', objSet_present_eq_map _ k v h'w,
      List.map_map, List.map_map]
    apply List.map_congr_left
    intro p _
    by_cases hp : p.1 = k
    · have hxp : ¬ p.1 = k' := by rw [hp]; exact hne
      simp [hp, hxp, hne, Ne.symm hne]
    · by_cases hp' : p.1 = k' <;> simp [hp, hp', hne, Ne.symm hne]
  · have hfresh' : k' ∉ objKeys m := fun hm =>
      h' ((find?_isSome_iff_mem_keys m k').mpr hm)
    have hfreshmap : k' ∉ objKeys (m.map (fun p => if p.1 = k then (k, v) else p)) := by
      intro hm
      apply h'
      rw [← find?_setMap_ne m k k' v (Ne.symm hne)]
      exact (find?_isSome_iff_mem_keys _ k').mpr hm
    have h'w : (((m ++ [(k', w)]).find? (fun p => p.1 = k))).isSome = true := by
      rw [List.find?_append]
      rcases Option.isSome_iff_exists.mp hfind with ⟨a, ha⟩
      rw [ha]
      rfl
    rw [objSet_present_eq_map m k v hfind, objSet_fresh _ k' w hfreshmap,
      objSet_fresh m k' w hfresh', objSet_present_eq_map _ k v h'w,
      List.map_append]
    congr 1
    simp [hne, Ne.symm hne]

theorem objGet_of_mem_nodup {α : Type} (m : AssocL α) (k : String) (v : α)
    (hnodup : (objKeys m).Nodup) (hmem : (k, v) ∈ m) : objGet m k = some v := by
  induction m with
  | nil => cases hmem
  | cons p rest ih =>
    rw [show objKeys (p :: rest) = p.1 :: objKeys rest from rfl,
      List.nodup_cons] at hnodup
    rcases List.mem_cons.mp hmem with h | h
    · rw [← h]
      unfold objGet
      rw [find?_cons_pos _ _ _ (by simp)]
      rfl
    · have hk : k ∈ objKeys rest := List.mem_map_of_mem (fun p => p.1) h
      have hp1 : ¬ p.1 = k := fun he => hnodup.1 (he ▸ hk)
      unfold objGet
      rw [find?_cons_neg _ _ _ (by simp [hp1])]
      exact ih hnodup.2 h

theorem mem_of_objGet {α : Type} (m : AssocL α) (k : String) (v : α)
    (h : objGet m k = some v) : (k, v) ∈ m := by
  unfold objGet at h
  cases hf : m.find? (fun p => p.1 = k) with
  | none => rw [hf] at h; cases h
  | some p =>
    rw [hf] at h
    have hp := List.find?_some hf
    have hmem := List.mem_of_find?_eq_some hf
    simp at hp h
    rw [← h, ← hp]
    exact hmem

theorem mem_objSet_present {α : Type} (m : AssocL α) (k : String) (v : α)
    (h : (objGet m k).isSome = true) (e : String × α) (he : e ∈ objSet m k v) :
    e = (k, v) ∨ (e ∈ m ∧ e.1 ≠ k) := by
  unfold objSet at he
  rw [if_pos (by simpa [objGet] using h)] at he
  rcases List.mem_map.mp he with ⟨p, hp, rfl⟩
  by_cases hpk : p.1 = k
  · left; simp [hpk]
  · right
    simp only [hpk, if_false]
    exact ⟨hp, hpk⟩

/-! ## String plumbing -/

theorem string_data_inj (a b : String) (h : a.data = b.data) : a = b := by
  cases a; cases b; exact congrArg String.mk h

theorem string_append_data (a b : String) : (a ++ b).data = a.data ++ b.data := by
  cases a; cases b; rfl

theorem asString_data (l : List Char) : (l.asString).data = l := rfl

theorem toList_eq_data (s : String) : s.toList = s.data := rfl

theorem data_asString (s : String) : s.data.asString = s := by cases s; rfl

theorem asString_ne_empty (l : List Char) (h : l ≠ []) : l.asString ≠ "" := by
  intro he
  exact h (by simpa using congrArg String.data he)

/-! ## Claim C10: folder naming and permalink parsing round-trip -/

theorem folderFromDateSlug_data (d s : String) :
    (folderFromDateSlug d s).data = d.data.take 10 ++ ('-' :: s.data) := by
  unfold folderFromDateSlug jsSlice
  rw [string_append_data, string_append_data, asString_data, toList_eq_data,
    List.drop_zero, Nat.sub_zero, List.append_assoc]
  rfl

/-- Claim C10: for every ISO date string `d` (formalized by the weaker
hypothesis that `d` has at least 10 characters, which every ISO-8601 string
satisfies) and non-empty slug `s`, the destination folder name is the first
10 characters of `d`, a dash, and `s`, and parsing that folder name back with
`permalinkFromFolder` yields the same permalink as deriving it directly:
`permalinkFromFolder (folderFromDateSlug d s) = permalinkFromDateSlug d s`. -/
theorem c10_folder_permalink_roundtrip (d s : String) (hd : 10 ≤ d.length)
    (hs : s ≠ "") :
    permalinkFromFolder (folderFromDateSlug d s) = permalinkFromDateSlug d s := by
  have hd' : 10 ≤ d.data.length := hd
  have hlen : (d.data.take 10).length = 10 := by
    rw [List.length_take]
    omega
  have hdate : jsSlice (folderFromDateSlug d s) 0 10 = (d.data.take 10).asString := by
    unfold jsSlice
    rw [toList_eq_data, folderFromDateSlug_data, List.drop_zero]
    congr 1
    rw [show (10 - 0 : Nat) = (d.data.take 10).length from by rw [hlen]]
    exact List.take_left _ _
  have hslug : jsSliceFrom (folderFromDateSlug d s) 11 = s := by
    unfold jsSliceFrom
    rw [toList_eq_data, folderFromDateSlug_data]
    have h11 : ((d.data.take 10) ++ ('-' :: s.data)).drop 11 = s.data := by
      rw [show (11 : Nat) = (d.data.take 10).length + 1 from by rw [hlen],
        ← List.drop_drop, List.drop_left]
      rfl
    rw [h11]
    exact data_asString s
  have hdate_ne : (d.data.take 10).asString ≠ "" := by
    apply asString_ne_empty
    intro he
    rw [he] at hlen
    simp at hlen
  unfold permalinkFromFolder
  rw [hdate, hslug, if_neg (by push_neg; exact ⟨hdate_ne, hs⟩)]
  unfold permalinkFromDateSlug jsSlice
  rw [toList_eq_data, asString_data]
  have hy : ((d.data.take 10).drop 0).take (4 - 0) = (d.data.drop 0).take (4 - 0) := by
    rw [List.drop_zero, List.drop_zero, List.take_take]
    norm_num
  have hm : ((d.data.take 10).drop 5).take (7 - 5) = (d.data.drop 5).take (7 - 5) := by
    rw [List.drop_take, List.take_take]
    norm_num
  have hdd : ((d.data.take 10).drop 8).take (10 - 8) = (d.data.drop 8).take (10 - 8) := by
    rw [List.drop_take, List.take_take]
    norm_num
  rw [hy, hm, hdd]
  rfl

/-- Witness for C10 at a concrete ISO date and slug. -/
theorem c10_folder_permalink_roundtrip_witness :
    10 ≤ ("2024-01-02T03:04:05.000Z" : String).length ∧ ("slug-x" : String) ≠ "" ∧
      permalinkFromFolder (folderFromDateSlug "2024-01-02T03:04:05.000Z" "slug-x") =
        permalinkFromDateSlug "2024-01-02T03:04:05.000Z" "slug-x" :=
  ⟨by decide, by decide,
    c10_folder_permalink_roundtrip "2024-01-02T03:04:05.000Z" "slug-x"
      (by decide) (by decide)⟩

/-! ## Claim C9: slug determinism -/

/-- Claim C9 counterexample: the title `"!!!"` is non-empty, yet two
evaluations of the title-to-identifier function with different values of the
randomness source give different identifiers, because the random fallback is
taken whenever the slugized title is empty, not only when the title itself is
empty. -/
theorem c9_slug_determinism_counterexample :
    ("!!!" : String) ≠ "" ∧
      slugFromTitle "ab" "!!!" ≠ slugFromTitle "cd" "!!!" ∧
      slugFromTitle "ab" "!!!" = slugize "ab" := by decide

/-- Claim C9 (amended): slug derivation is deterministic whenever the title
slugizes to a non-empty identifier — the result is then independent of the
randomness source and equal to the slugized title; the random fallback is
taken exactly when the slugized title is empty, which happens for the empty
title and also for non-empty titles with no alphanumeric characters. -/
theorem c9_slug_determinism (title r1 r2 : String) (h : slugize title ≠ "") :
    slugFromTitle r1 title = slugFromTitle r2 title ∧
      slugFromTitle r1 title = slugize title := by
  unfold slugFromTitle
  rw [if_neg h, if_neg h]
  exact ⟨rfl, rfl⟩

/-- Witness for C9 at a concrete title. -/
theorem c9_slug_determinism_witness :
    slugize "Hello" ≠ "" ∧ slugFromTitle "ab" "Hello" = slugFromTitle "cd" "Hello" :=
  ⟨by decide, (c9_slug_determinism "Hello" "ab" "cd" (by decide)).1⟩

/-! ## Claim C1: the ready flag of the status summary -/

/-- Claim C1 counterexample: a freshly created session has no pending notes
and no archives but also no `mainSlug`; `summarizeSession` still reports
`ready = true`, so `ready` is not the three-way conjunction the claim states
(the `mainSlug` conjunct is not consulted). -/
theorem c1_ready_counterexample :
    (summarizeSession ctxA (defaultSession "2024-01-01T00:00:00.000Z" "sid")).ready = true ∧
      (defaultSession "2024-01-01T00:00:00.000Z" "sid").mainSlug = none ∧
      ¬ ((summarizeSession ctxA (defaultSession "2024-01-01T00:00:00.000Z" "sid")).ready = true ↔
          ((defaultSession "2024-01-01T00:00:00.000Z" "sid").pendingNotes = [] ∧
           (∀ a ∈ (defaultSession "2024-01-01T00:00:00.000Z" "sid").archives,
             a.2.resolved = true) ∧
           (defaultSession "2024-01-01T00:00:00.000Z" "sid").mainSlug ≠ none)) := by
  decide

/-- Claim C1 (amended): for every session state, the `ready` field of the
status summary produced by `summarizeSession` is true exactly when
`pendingNotes` is empty and every archive in `archives` has `resolved = true`;
`mainSlug` is not consulted.  `summarizeSession` is a pure function of the
session state and the cache snapshot and performs no mutation (in this model
it is a function returning only a summary). -/
theorem c1_ready_iff (ctx : Ctx) (s : Session) :
    (summarizeSession ctx s).ready = true ↔
      (s.pendingNotes = [] ∧ ∀ a ∈ s.archives, a.2.resolved = true) := by
  show decide (_ ∧ _) = true ↔ _
  rw [decide_eq_true_eq]
  unfold objValues
  constructor
  · rintro ⟨h1, h2⟩
    constructor
    · rw [List.length_map, List.length_eq_zero] at h1
      exact h1
    · intro a ha
      rw [List.length_map, List.length_eq_zero, List.filter_eq_nil_iff] at h2
      have := h2 a.2 (List.mem_map_of_mem (fun p => p.2) ha)
      simpa using this
  · rintro ⟨h1, h2⟩
    constructor
    · rw [List.length_map, List.length_eq_zero, h1]
    · rw [List.length_map, List.length_eq_zero, List.filter_eq_nil_iff]
      intro a ha
      rcases List.mem_map.mp ha with ⟨p, hp, rfl⟩
      simpa using h2 p hp

/-! ## Claim C7: addArchive validation and effect -/

/-- Claim C7: `addArchive` fails with a ValidationError when `sourceUrl`,
`filename` or `data` is missing, and with the ValidationError
"Archive was not requested" when no archive whose id is the hash of
`sourceUrl` exists in the loaded session; on every such failure the world —
persisted sessions and written files — is exactly unchanged; otherwise it
marks that archive `resolved = true` with `filename` and `filePath` set,
writes the decoded payload, persists the session, and returns a status
summary of the updated session. -/
theorem c7_add_archive (ctx : Ctx) (w : World) (sid u f d : String) :
    ((u = "" ∨ f = "" ∨ d = "") →
      addArchiveW ctx w sid u f d =
        (w, .error (.validation "Archive upload requires url, filename and data"))) ∧
    (u ≠ "" → f ≠ "" → d ≠ "" →
      ∀ s, objGet w.sessions sid = some s →
        ((objGet s.archives (archiveIdFromUrl ctx u) = none →
          addArchiveW ctx w sid u f d =
            (w, .error (.validation "Archive was not requested"))) ∧
         (∀ a, objGet s.archives (archiveIdFromUrl ctx u) = some a →
          (addArchiveW ctx w sid u f d =
            (saveSession
              (writeFile w (archivePath sid (archiveIdFromUrl ctx u) f) (stripDataUri d))
              (resolveSession s (archiveIdFromUrl ctx u) a f
                (archivePath sid (archiveIdFromUrl ctx u) f)),
             .ok (summarizeSession ctx
              (resolveSession s (archiveIdFromUrl ctx u) a f
                (archivePath sid (archiveIdFromUrl ctx u) f)))) ∧
            objGet (resolveSession s (archiveIdFromUrl ctx u) a f
                (archivePath sid (archiveIdFromUrl ctx u) f)).archives
              (archiveIdFromUrl ctx u) =
              some (resolveArch a f (archivePath sid (archiveIdFromUrl ctx u) f)))))) := by
  constructor
  · intro h
    unfold addArchiveW
    rw [if_pos h]
  · intro hu hf hd s hs
    have hvalid : ¬ (u = "" ∨ f = "" ∨ d = "") := by
      push_neg
      exact ⟨hu, hf, hd⟩
    constructor
    · intro hnone
      unfold addArchiveW
      rw [if_neg hvalid]
      unfold loadSession
      rw [hs]
      simp only [hnone]
    · intro a ha
      constructor
      · unfold addArchiveW
        rw [if_neg hvalid]
        unfold loadSession
        rw [hs]
        simp only [ha]
        unfold resolveSession resolveArch
        rfl
      · exact objGet_objSet_self _ _ _

/-- Witness for C7: uploading an archive for a requested url succeeds and
resolves the archive entry. -/
theorem c7_add_archive_witness :
    (addArchiveW ctxA wC7 "s7" "http://e.com" "f.html" "dat").2 =
      .ok (summarizeSession ctxA
        (resolveSession sessC7 (archiveIdFromUrl ctxA "http://e.com")
          { id := "http://e.c", url := "http://e.com", resolved := false,
            filename := none, filePath := none, referencedBy := ["a"] }
          "f.html" (archivePath "s7" (archiveIdFromUrl ctxA "http://e.com") "f.html"))) := by
  have h := ((c7_add_archive ctxA wC7 "s7" "http://e.com" "f.html" "dat").2
    (by decide) (by decide) (by decide) sessC7 (by decide)).2
    { id := "http://e.c", url := "http://e.com", resolved := false,
      filename := none, filePath := none, referencedBy := ["a"] } (by decide)
  rw [h.1]

/-! ## Claim C3: addNote crashes with a ReferenceError -/

/-- Claim C3 (code bug): a call to `addNote` with an existing session, a
non-empty filename and non-empty content does not complete successfully and
does not fail with one of the four declared error kinds: the sessions module
calls `normalizeTags` without defining or importing it, so the call raises a
JavaScript ReferenceError — after the raw note file has been written but
before the session is updated or persisted. -/
theorem c3_addnote_reference_error :
    (addNoteW ctxA wC3 "s3" "a.md" "hello" false).2 =
      .error (.referenceError "normalizeTags is not defined") ∧
    (Err.referenceError "normalizeTags is not defined").declaredKind = false ∧
    (addNoteW ctxA wC3 "s3" "a.md" "hello" false).1.sessions = wC3.sessions := by
  refine ⟨?_, rfl, ?_⟩ <;> rfl

/-! ## Claim C2: commit readiness gating -/

theorem writeFile_preserves (w : World) (path content p : String)
    (h : (objGet w.files p).isSome = true) :
    (objGet (writeFile w path content).files p).isSome = true := by
  unfold writeFile
  by_cases hp : p = path
  · subst hp
    rw [objGet_objSet_self]
    rfl
  · rw [objGet_objSet_ne _ _ _ _ hp]
    exact h

theorem assertReady_none_iff (s : Session) :
    assertReady s = none ↔ ReadyConds s := by
  unfold assertReady ReadyConds
  split_ifs with h1 h2 h3
  · simp only [false_iff]
    rintro ⟨hp, _, _⟩
    rw [hp] at h1
    simp [objKeys] at h1
  · simp only [false_iff]
    rintro ⟨_, hr, _⟩
    apply h2
    rw [List.length_eq_zero, List.filter_eq_nil_iff]
    intro a ha
    rcases List.mem_map.mp ha with ⟨p, hp, rfl⟩
    simpa using hr p hp
  · simp only [false_iff]
    rintro ⟨_, _, hm⟩
    rw [hm] at h3
    cases h3
  · simp only [true_iff]
    refine ⟨?_, ?_, ?_⟩
    · have : (objKeys s.pendingNotes).length = 0 := by omega
      rw [List.length_eq_zero] at this
      cases hpn : s.pendingNotes with
      | nil => rfl
      | cons q qs =>
        rw [hpn] at this
        simp [objKeys] at this
    · intro a ha
      rw [not_ne_iff, List.length_eq_zero, List.filter_eq_nil_iff] at h2
      have := h2 a.2 (List.mem_map_of_mem (fun p => p.2) ha)
      simpa using this
    · exact Bool.not_eq_true _ ▸ eq_false_of_ne_true h3

theorem assertReady_some_precondition (s : Session) (e : Err)
    (h : assertReady s = some e) : e.isPrecondition = true := by
  unfold assertReady at h
  split_ifs at h <;> cases h <;> rfl

theorem copyArchive_cases (s : Session) (w : World) (folder : String)
    (acc : AssocL String) (k : String) :
    (∃ e, copyArchive s w folder acc k = .error e ∧ e.isPrecondition = false) ∨
    (∃ w' links, copyArchive s w folder acc k = .ok (w', links)) := by
  cases h1 : objGet s.archives k with
  | none =>
    exact .inl ⟨.typeError "Cannot read properties of undefined",
      by simp only [copyArchive, h1], rfl⟩
  | some a =>
    cases h2 : a.filePath with
    | none =>
      exact .inl ⟨.ioError "ENOENT: no such file or directory",
        by simp only [copyArchive, h1, h2], rfl⟩
    | some fp =>
      cases h3 : objGet w.files fp with
      | none =>
        exact .inl ⟨.ioError "ENOENT: no such file or directory",
          by simp only [copyArchive, h1, h2, h3], rfl⟩
      | some content =>
        refine .inr ⟨writeFile w ("posts/" ++ folder ++ "/archives/" ++ k ++ "-" ++
            (if strFalsy a.filename then k ++ ".html" else a.filename.getD "")) content,
          objSet acc k (encodeURI ("/posts/" ++ folder ++ "/archives/" ++ k ++ "-" ++
            (if strFalsy a.filename then k ++ ".html" else a.filename.getD ""))), ?_⟩
        simp only [copyArchive, h1, h2, h3]

theorem copyArchive_ok (s : Session) (w : World) (folder : String)
    (acc : AssocL String) (k : String) (a : Archive) (fp content : String)
    (ha : objGet s.archives k = some a) (hfp : a.filePath = some fp)
    (hc : objGet w.files fp = some content) :
    ∃ dest links, copyArchive s w folder acc k = .ok (writeFile w dest content, links) := by
  refine ⟨"posts/" ++ folder ++ "/archives/" ++ k ++ "-" ++
      (if strFalsy a.filename then k ++ ".html" else a.filename.getD ""),
    objSet acc k (encodeURI ("/posts/" ++ folder ++ "/archives/" ++ k ++ "-" ++
      (if strFalsy a.filename then k ++ ".html" else a.filename.getD ""))), ?_⟩
  simp only [copyArchive, ha, hfp, hc]

theorem copyArchives_ok (s : Session) (folder : String) :
    ∀ (keys : List String) (w : World) (acc : AssocL String),
    (∀ k ∈ keys, ∃ a, objGet s.archives k = some a ∧
        ∃ fp, a.filePath = some fp ∧ (objGet w.files fp).isSome = true) →
    ∃ w' links, copyArchives s folder w acc keys = (w', links, none) ∧
      ∀ p, (objGet w.files p).isSome = true → (objGet w'.files p).isSome = true
  | [], w, acc, _ => ⟨w, acc, rfl, fun _ h => h⟩
  | k :: rest, w, acc, hb => by
    obtain ⟨a, ha, fp, hfp, hfile⟩ := hb k (by simp)
    obtain ⟨content, hcontent⟩ := Option.isSome_iff_exists.mp hfile
    obtain ⟨dest, links, hstep⟩ :=
      copyArchive_ok s w folder acc k a fp content ha hfp hcontent
    have hpres : ∀ p, (objGet w.files p).isSome = true →
        (objGet (writeFile w dest content).files p).isSome = true :=
      fun p hp => writeFile_preserves w dest content p hp
    obtain ⟨w', links', hrest, hpres'⟩ :=
      copyArchives_ok s folder rest (writeFile w dest content) links
        (fun k' hk' => by
          obtain ⟨a', ha', fp', hfp', hfile'⟩ := hb k' (List.mem_cons_of_mem _ hk')
          exact ⟨a', ha', fp', hfp', hpres _ hfile'⟩)
    refine ⟨w', links', ?_, fun p hp => hpres' p (hpres p hp)⟩
    unfold copyArchives
    rw [hstep]
    exact hrest

theorem copyArchives_err (s : Session) (folder : String) :
    ∀ (keys : List String) (w : World) (acc : AssocL String) (e : Err),
    (copyArchives s folder w acc keys).2.2 = some e → e.isPrecondition = false
  | [], w, acc, e => by
    intro h
    simp [copyArchives] at h
  | k :: rest, w, acc, e => by
    intro h
    unfold copyArchives at h
    rcases copyArchive_cases s w folder acc k with ⟨e', he', hp⟩ | ⟨w', links, hok⟩
    · rw [he'] at h
      simp at h
      rwa [← h]
    · rw [hok] at h
      exact copyArchives_err s folder rest w' links e h

theorem commitNote_err (ctx : Ctx) (s : Session) (folderMap : AssocL String)
    (w : World) (slug : String) (note : Note) :
    ∃ e, (commitNote ctx s folderMap w slug note).2 = some e ∧
      e.isPrecondition = false := by
  unfold commitNote
  dsimp only
  cases hc : copyArchives s ((objGet folderMap slug).getD "") w []
      (objKeys note.dependencies.archives) with
  | mk w1 rest =>
    cases rest with
    | mk links err =>
      cases err with
      | none => exact ⟨.referenceError "normalizeTags is not defined", rfl, rfl⟩
      | some e' =>
        refine ⟨e', rfl, ?_⟩
        exact copyArchives_err s ((objGet folderMap slug).getD "") _ w [] e'
          (by rw [hc])

/-- With the note's archive dependencies backed by stored files, the per-note
step reaches the undefined `normalizeTags` and returns exactly the
ReferenceError. -/
theorem commitNote_ref (ctx : Ctx) (s : Session) (folderMap : AssocL String)
    (w : World) (slug : String) (note : Note)
    (hb : ∀ k ∈ objKeys note.dependencies.archives,
      ∃ a, objGet s.archives k = some a ∧ ∃ fp, a.filePath = some fp ∧
        (objGet w.files fp).isSome = true) :
    (commitNote ctx s folderMap w slug note).2 =
      some (.referenceError "normalizeTags is not defined") := by
  obtain ⟨w1, links, hstep, _⟩ :=
    copyArchives_ok s ((objGet folderMap slug).getD "")
      (objKeys note.dependencies.archives) w [] hb
  unfold commitNote
  dsimp only
  rw [hstep]

theorem commitLoop_err (ctx : Ctx) (s : Session) (folderMap : AssocL String) :
    ∀ (notes : List (String × Note)) (w : World) (e : Err),
    (commitLoop ctx s folderMap w notes).2 = some e → e.isPrecondition = false
  | [], w, e => by
    intro h
    simp [commitLoop] at h
  | (slug, note) :: rest, w, e => by
    intro h
    unfold commitLoop at h
    cases hc : commitNote ctx s folderMap w slug note with
    | mk w1 err =>
      rw [hc] at h
      cases err with
      | none => exact commitLoop_err ctx s folderMap rest w1 e h
      | some e' =>
        simp at h
        obtain ⟨e0, he0, hp⟩ := commitNote_err ctx s folderMap w slug note
        rw [hc] at he0
        injection he0 with he0
        rw [← h, he0]
        exact hp

/-- The commit loop on a non-empty notes registry stops at the first note
with the ReferenceError (its archive copies permitting). -/
theorem commitLoop_cons_ref (ctx : Ctx) (s : Session) (folderMap : AssocL String)
    (w : World) (slug : String) (note : Note) (rest : List (String × Note))
    (hb : ∀ k ∈ objKeys note.dependencies.archives,
      ∃ a, objGet s.archives k = some a ∧ ∃ fp, a.filePath = some fp ∧
        (objGet w.files fp).isSome = true) :
    (commitLoop ctx s folderMap w ((slug, note) :: rest)).2 =
      some (.referenceError "normalizeTags is not defined") := by
  have href := commitNote_ref ctx s folderMap w slug note hb
  unfold commitLoop
  cases hc : commitNote ctx s folderMap w slug note with
  | mk w1 err =>
    rw [hc] at href
    cases err with
    | none => exact Option.noConfusion href
    | some e =>
      injection href with href
      rw [href]

/-- Claim C2, as the program behaves: `commitSession` fails with a
PreconditionFailed error exactly when the loaded session is not ready (a
pending note, an unresolved archive, or no main slug).  The claimed success
path exists only for a ready session with NO notes (success with an empty
folder list): for every ready session holding at least one note, the
per-note loop evaluates the undefined `normalizeTags` (line 330) after
copying that note's archives and raises a ReferenceError before writing the
destination document, so commit never returns the claimed per-note folder
list. -/
theorem c2_commit_gating (ctx : Ctx) (w : World) (sid : String) (s : Session)
    (hs : objGet w.sessions sid = some s) :
    (isPreconditionErr (commitSession ctx w sid).2 = true ↔ ¬ ReadyConds s) ∧
    (ReadyConds s → s.notes = [] →
      (commitSession ctx w sid).2 = .ok { success := true, folders := [] }) ∧
    (ReadyConds s → ∀ slug note rest, s.notes = (slug, note) :: rest →
      (∀ k ∈ objKeys note.dependencies.archives,
        ∃ a, objGet s.archives k = some a ∧ ∃ fp, a.filePath = some fp ∧
          (objGet w.files fp).isSome = true) →
      (commitSession ctx w sid).2 =
        .error (.referenceError "normalizeTags is not defined")) := by
  refine ⟨⟨?_, ?_⟩, ?_, ?_⟩
  · intro hpre hready
    have hr := (assertReady_none_iff s).mpr hready
    cases hc : commitLoop ctx s
        (s.notes.foldl (fun fm p => objSet fm p.2.slug (folderFromDateSlug p.2.date p.2.slug)) [])
        w s.notes with
    | mk w' err =>
      cases err with
      | none =>
        simp only [commitSession, loadSession, hs, hr, hc, isPreconditionErr] at hpre
        exact Bool.false_ne_true hpre
      | some e =>
        have hnp := commitLoop_err ctx s _ s.notes w e (by rw [hc])
        simp only [commitSession, loadSession, hs, hr, hc, isPreconditionErr] at hpre
        rw [hnp] at hpre
        cases hpre
  · intro hnready
    cases har : assertReady s with
    | none => exact absurd ((assertReady_none_iff s).mp har) hnready
    | some e =>
      simp only [commitSession, loadSession, hs, har, isPreconditionErr]
      exact assertReady_some_precondition s e har
  · intro hready hnil
    have hr := (assertReady_none_iff s).mpr hready
    simp only [commitSession, loadSession, hs, hr, hnil]
    rfl
  · intro hready slug note rest hcons hb
    have hr := (assertReady_none_iff s).mpr hready
    simp only [commitSession, loadSession, hs, hr, hcons]
    have hloop := commitLoop_cons_ref ctx s
      (((slug, note) :: rest).foldl
        (fun fm p => objSet fm p.2.slug (folderFromDateSlug p.2.date p.2.slug)) [])
      w slug note rest hb
    cases hc : commitLoop ctx s
        (((slug, note) :: rest).foldl
          (fun fm p => objSet fm p.2.slug (folderFromDateSlug p.2.date p.2.slug)) [])
        w ((slug, note) :: rest) with
    | mk w' err =>
      rw [hc] at hloop
      cases err with
      | none => exact Option.noConfusion hloop
      | some e =>
        injection hloop with hloop
        rw [hloop]

/-- C2 witness: a concrete ready one-note world; committing it raises the
ReferenceError instead of succeeding with the note's folder. -/
theorem c2_commit_gating_witness :
    (objGet wC2.sessions "s2" = some sessC2) ∧
    ReadyConds sessC2 ∧
    (commitSession ctxA wC2 "s2").2 =
      .error (.referenceError "normalizeTags is not defined") := by
  have h := (c2_commit_gating ctxA wC2 "s2" sessC2 rfl).2.2
    ⟨rfl, by decide, rfl⟩ "a" noteC2 [] rfl
    (fun k hk => absurd hk (List.not_mem_nil k))
  exact ⟨rfl, ⟨rfl, by decide, rfl⟩, h⟩

/-! ## Field preservation for addArchive -/

theorem addArchiveUpdate_some (ctx : Ctx) (u f d : String) (s s' : Session)
    (h : addArchiveUpdate ctx u f d s = some s') :
    s'.id = s.id ∧ s'.createdAt = s.createdAt ∧ s'.notes = s.notes ∧
      s'.pendingNotes = s.pendingNotes ∧ s'.mainSlug = s.mainSlug ∧
      ∃ a, objGet s.archives (archiveIdFromUrl ctx u) = some a ∧
        s'.archives = objSet s.archives (archiveIdFromUrl ctx u)
          (resolveArch a f (archivePath s.id (archiveIdFromUrl ctx u) f)) := by
  unfold addArchiveUpdate at h
  by_cases hv : u = "" ∨ f = "" ∨ d = ""
  · rw [if_pos hv] at h
    cases h
  · rw [if_neg hv] at h
    dsimp only at h
    cases ha : objGet s.archives (archiveIdFromUrl ctx u) with
    | none =>
      rw [ha] at h
      cases h
    | some a =>
      rw [ha] at h
      injection h with h
      rw [← h]
      exact ⟨rfl, rfl, rfl, rfl, rfl, a, rfl, rfl⟩

/-! ## C4: the pending-notes registry invariant -/

theorem objGet_isSome_iff_mem_keys {α : Type} (m : AssocL α) (k : String) :
    (objGet m k).isSome = true ↔ k ∈ objKeys m := by
  unfold objGet
  rw [show ((m.find? (fun p => p.1 = k)).map (fun p => p.2)).isSome
      = (m.find? (fun p => p.1 = k)).isSome from by
    cases m.find? (fun p => p.1 = k) <;> rfl]
  exact find?_isSome_iff_mem_keys m k

theorem pendingInvariant_default (ctx : Ctx) (t i : String) :
    PendingInvariant ctx (defaultSession t i) := by
  intro S
  constructor
  · intro hS
    simp [defaultSession, objGet] at hS
  · rintro ⟨⟨p, hp, _⟩, _, _⟩
    simp [defaultSession] at hp

/-! ## C5: archive identity and deduplication -/

theorem countP_key_singleton {α : Type} :
    ∀ (m : AssocL α) (k : String), (objKeys m).Nodup →
    (objGet m k).isSome = true →
    m.countP (fun p => p.1 = k) = 1
  | [], k, _, h => by simp [objGet] at h
  | q :: rest, k, hN, h => by
    rw [show objKeys (q :: rest) = q.1 :: objKeys rest from rfl,
      List.nodup_cons] at hN
    by_cases hq : q.1 = k
    · rw [List.countP_cons_of_pos _ _ (by simp [hq])]
      have hz : rest.countP (fun p => p.1 = k) = 0 := by
        rw [List.countP_eq_zero]
        intro p hp hpk
        have hpk2 : p.1 = k := by simpa using hpk
        exact hN.1 ((hq.trans hpk2.symm) ▸ List.mem_map.mpr ⟨p, hp, rfl⟩)
      rw [hz]
    · rw [List.countP_cons_of_neg _ _ (by simp [hq])]
      refine countP_key_singleton rest k hN.2 ?_
      rw [objGet_isSome_eq_find] at h ⊢
      rw [find?_cons_neg _ _ _ (by simp [hq])] at h
      exact h

theorem summarize_ready_iff (ctx : Ctx) (s : Session) :
    (summarizeSession ctx s).ready = true ↔
      (s.pendingNotes = [] ∧ ∀ a ∈ s.archives, a.2.resolved = true) := by
  show decide (_ ∧ _) = true ↔ _
  rw [decide_eq_true_eq]
  unfold objValues
  constructor
  · rintro ⟨h1, h2⟩
    constructor
    · rw [List.length_map, List.length_eq_zero] at h1
      exact h1
    · intro a ha
      rw [List.length_map, List.length_eq_zero, List.filter_eq_nil_iff] at h2
      have := h2 a.2 (List.mem_map_of_mem (fun p => p.2) ha)
      simpa using this
  · rintro ⟨h1, h2⟩
    constructor
    · rw [List.length_map, List.length_eq_zero, h1]
    · rw [List.length_map, List.length_eq_zero, List.filter_eq_nil_iff]
      intro a ha
      rcases List.mem_map.mp ha with ⟨p, hp, rfl⟩
      simpa using h2 p hp

theorem head_key_isSome {α : Type} (m : AssocL α) (h : m ≠ []) :
    ∃ k, (objGet m k).isSome = true := by
  cases m with
  | nil => exact absurd rfl h
  | cons p rest =>
    refine ⟨p.1, ?_⟩
    unfold objGet
    rw [find?_cons_pos _ _ _ (by simp)]
    rfl

theorem empty_iff_of_presence {α : Type} (m1 m2 : AssocL α)
    (h : ∀ k, (objGet m1 k).isSome = true ↔ (objGet m2 k).isSome = true) :
    (m1 = [] ↔ m2 = []) := by
  constructor
  · intro h1
    by_contra h2
    obtain ⟨k, hk⟩ := head_key_isSome m2 h2
    have hx := (h k).mpr hk
    rw [h1] at hx
    simp [objGet] at hx
  · intro h2
    by_contra h1
    obtain ⟨k, hk⟩ := head_key_isSome m1 h1
    have hx := (h k).mp hk
    rw [h2] at hx
    simp [objGet] at hx

/-! ## Reachable session states and the claims over them -/

theorem addArchiveUpdate_default (ctx : Ctx) (u f d t i : String) :
    addArchiveUpdate ctx u f d (defaultSession t i) = none := by
  unfold addArchiveUpdate
  by_cases hv : u = "" ∨ f = "" ∨ d = ""
  · rw [if_pos hv]
  · rw [if_neg hv]
    rfl

/-- Every operation sequence leaves a fresh session unchanged: `addNote`
raises the ReferenceError before mutating the session, and `addArchive`
requires an archive entry that only a completed `addNote` could have
requested, so it always throws "Archive was not requested". -/
theorem applyOps_default (ctx : Ctx) : ∀ (ops : List Op) (t i : String),
    applyOps ctx ops (defaultSession t i) = defaultSession t i
  | [], _, _ => rfl
  | op :: ops, t, i => by
    show applyOps ctx ops (applyOp ctx (defaultSession t i) op) =
      defaultSession t i
    have hop : applyOp ctx (defaultSession t i) op = defaultSession t i := by
      cases op with
      | note f c m => rfl
      | archive u f d =>
        show (addArchiveUpdate ctx u f d (defaultSession t i)).getD _ = _
        rw [addArchiveUpdate_default]
        rfl
    rw [hop]
    exact applyOps_default ctx ops t i

/-- C4: every session state reachable from a fresh session by addNote and
addArchive operations satisfies the pending-registry invariant: an entry
`pendingNotes[S]` exists iff some stored note has `S` among its wiki
dependencies, `S` is not itself a stored note, and `S` is not in the
published-post cache.  In the program as written this holds vacuously: every
`addNote` raises the undefined-`normalizeTags` ReferenceError before mutating
the session and `addArchive` demands an entry only `addNote` could create, so
the only reachable session state is the fresh one, which satisfies the
invariant. -/
theorem c4_pending_invariant (ctx : Ctx) (ops : List Op) (t i : String) :
    PendingInvariant ctx (applyOps ctx ops (defaultSession t i)) := by
  rw [applyOps_default]
  exact pendingInvariant_default ctx t i

/-- C8: in every session state reachable by addNote (and addArchive)
operations, at most one stored note has `isMain = true`, and whenever
`mainSlug` is set it is the slug of a stored note flagged as main.  In the
program as written this holds vacuously: no `addNote` ever completes, so the
notes registry stays empty and `mainSlug` stays unset. -/
theorem c8_main_slug (ctx : Ctx) (ops : List Op) (t i : String) :
    ((applyOps ctx ops (defaultSession t i)).notes.countP
        (fun p => p.2.isMain) ≤ 1) ∧
    (∀ σ, (applyOps ctx ops (defaultSession t i)).mainSlug = some σ →
      ∃ p ∈ (applyOps ctx ops (defaultSession t i)).notes,
        p.2.isMain = true ∧ p.2.slug = σ) := by
  rw [applyOps_default]
  exact ⟨Nat.zero_le 1, fun σ h => Option.noConfusion h⟩

/-- C5 divergence: in the program as written no note upload ever creates an
archive entry — each of the two `addNote` calls raises the
undefined-`normalizeTags` ReferenceError (line 191) before touching the
session — so after two uploads whose bodies link the same url the registry
holds NO entry whose url matches, not the single deduplicated entry with both
referencing slugs that the claim describes. -/
theorem c5_archive_dedup (ctx : Ctx) (t i f1 c1 f2 c2 u : String)
    (m1 m2 : Bool) :
    (applyOps ctx [Op.note f1 c1 m1, Op.note f2 c2 m2]
        (defaultSession t i)).archives.countP (fun p => p.2.url = u) = 0 := by
  rw [applyOps_default]
  rfl

/-- C6: performing the resolving operation before versus after adding the
referencing document yields the same final session state — hence the same
ready flag and the same dependency metadata.  In the program as written this
holds because adding a document is a session-level no-op: `addNote` raises
the undefined-`normalizeTags` ReferenceError before any session mutation, so
swapping it with any other operation cannot change the outcome. -/
theorem c6_order_independence (ctx : Ctx) (s : Session) (f c : String)
    (m : Bool) (op : Op) :
    applyOps ctx [Op.note f c m, op] s = applyOps ctx [op, Op.note f c m] s ∧
    (summarizeSession ctx (applyOps ctx [Op.note f c m, op] s)).ready =
      (summarizeSession ctx (applyOps ctx [op, Op.note f c m] s)).ready := by
  have h : applyOps ctx [Op.note f c m, op] s =
      applyOps ctx [op, Op.note f c m] s := rfl
  exact ⟨h, by rw [h]⟩


end HexoSessions
